import Mathlib

/-!
Verification development for the 9Toes Ultimate Tic-Tac-Toe engine.

Shallow embedding of the rules engine (`src/game/engine.ts`, with the
state-transition module `src/game/state.ts` and the AI module
`src/game/ai.ts`) and of the Swift port
(`swift/Sources/NineToesEngine/Engine.swift`, `State.swift`).

Conventions:
* TypeScript arrays of length 9 become functions `Fin 9 → _`.
* `Player | "D" | null` (the TS `LocalResult`/`GameResult` union) becomes the
  inductive `LRes` with constructors `P`, `D`, `N` (`N` is TS `null`).
* TS truthiness tests on a `LocalResult` value (`if (state.result) ...`)
  become `≠ LRes.N`.
* Numeric scores (JS numbers, here always integer multiples of 0.5) become `ℚ`.
* The TS field `local` is renamed `locals` (`local` is a Lean keyword).
* `Math.random()` draws are passed in explicitly as `ℚ` arguments in `[0,1)`.
-/

namespace NineToes

/-- TS `type Player = "X" | "O"` (engine.ts line 1). -/
inductive Player : Type
  | X : Player
  | O : Player
deriving DecidableEq, Repr

/-- TS `other(p)` (engine.ts lines 30-32). -/
def other (p : Player) : Player :=
  match p with
  | Player.X => Player.O
  | Player.O => Player.X

/-- TS `type Cell = Player | null` (engine.ts line 2). -/
abbrev Cell : Type := Option Player

/-- TS `type LocalResult = Player | "D" | null` (engine.ts line 3); also used
for `GameResult` (line 4). `N` is the TS `null` (undecided). -/
inductive LRes : Type
  | P : Player → LRes
  | D : LRes
  | N : LRes
deriving DecidableEq, Repr

/-- The game variant: `"classic"` or `"tictacku"` (the spec's
"first-to-5-of-9"); the `Variant` type is declared in the repository's
`engine.ts` and consumed by `state.ts`/`ai.ts`. -/
inductive Variant : Type
  | classic : Variant
  | tictacku : Variant
deriving DecidableEq, Repr

/-- AI difficulty (`engine.ts` `type Difficulty`, used by ai.ts). -/
inductive Difficulty : Type
  | easy : Difficulty
  | medium : Difficulty
  | hard : Difficulty
deriving DecidableEq, Repr

/-- A winning line, as the triple of cell indices. -/
abbrev Line : Type := Fin 9 × Fin 9 × Fin 9

/-- TS `LINES` (engine.ts lines 19-28): 3 rows, 3 columns, 2 diagonals. -/
def LINES : List Line :=
  [(0, 1, 2), (3, 4, 5), (6, 7, 8),
   (0, 3, 6), (1, 4, 7), (2, 5, 8),
   (0, 4, 8), (2, 4, 6)]

/-- TS `type Move = { bi: number; ci: number }` (engine.ts line 5), with both
indices restricted to the meaningful range [0,8]. -/
structure Move : Type where
  bi : Fin 9
  ci : Fin 9
deriving DecidableEq, Repr

/-- TS `interface GameState` (engine.ts lines 7-17).  The TS field `local` is
called `locals` here. -/
structure GameState : Type where
  boards : Fin 9 → Fin 9 → Cell
  locals : Fin 9 → LRes
  nextBoard : Option (Fin 9)
  turn : Player
  result : LRes
  cubeValue : Nat
  cubeOwner : Option Player
  pendingDouble : Option Player

/-- The winner along one line, if any: the body of the loop in TS
`evalWinner9` (engine.ts lines 34-40): `const v = cells[a];
if (v && v === cells[b] && v === cells[c]) return v;`. -/
def lineWinner (cells : Fin 9 → Cell) (l : Line) : Option Player :=
  match cells l.1 with
  | some v => if cells l.2.1 = some v ∧ cells l.2.2 = some v then some v else none
  | none => none

/-- TS `evalWinner9(cells)` (engine.ts lines 34-40): first matching line wins. -/
def evalWinner9 (cells : Fin 9 → Cell) : Option Player :=
  LINES.findSome? (lineWinner cells)

/-- TS `isFull9(cells)` (engine.ts lines 51-54). -/
def isFull9 (cells : Fin 9 → Cell) : Bool :=
  (List.finRange 9).all (fun i => (cells i).isSome)

/-- TS `computeLocalResult(cells)` (engine.ts lines 56-61). -/
def computeLocalResult (cells : Fin 9 → Cell) : LRes :=
  match evalWinner9 cells with
  | some w => LRes.P w
  | none => if isFull9 cells then LRes.D else LRes.N

/-- The meta-board cells: `local.map((r) => (r === "X" || r === "O" ? r : null))`
(engine.ts line 65) — a draw counts as empty for line purposes. -/
def toBigCells (l : Fin 9 → LRes) : Fin 9 → Cell :=
  fun i =>
    match l i with
    | LRes.P p => some p
    | LRes.D => none
    | LRes.N => none

/-- Number of boards a player has won (`local` entries equal to that player). -/
def winCount (l : Fin 9 → LRes) (p : Player) : Nat :=
  (List.finRange 9).countP (fun i => decide (l i = LRes.P p))

/-- Modelled from the spec: the variant-aware branch of `computeBigResult` for
the `"tictacku"` ("first-to-5-of-9") variant.  The repository's `engine.ts`
with this branch is not among the provided source files — only an earlier,
variant-less `computeBigResult` appears there, while `state.ts`, `ai.ts` and
`engine.test.ts` all call `computeBigResult(local, variant)`.  Spec §4.2:
"a player wins immediately once they have won 5 of the 9 boards, even before
all are decided.  If neither has 5 and all are decided, Draw"; otherwise the
result stays undecided.  (This matches every `tictacku` expectation in
`engine.test.ts`.) -/
def computeBigResultTictacku (l : Fin 9 → LRes) : LRes :=
  if 5 ≤ winCount l Player.X then LRes.P Player.X
  else if 5 ≤ winCount l Player.O then LRes.P Player.O
  else if (List.finRange 9).all (fun i => decide (l i ≠ LRes.N)) then LRes.D
  else LRes.N

/-- TS `computeBigResult(local, variant)`.  The classic branch is translated
from engine.ts lines 63-72 (line win over the meta-board, else Draw iff all
locals decided, else undecided); the `tictacku` branch is modelled from the
spec (see `computeBigResultTictacku`). -/
def computeBigResult (l : Fin 9 → LRes) (v : Variant) : LRes :=
  match v with
  | Variant.classic =>
      match evalWinner9 (toBigCells l) with
      | some w => LRes.P w
      | none =>
          if (List.finRange 9).all (fun i => decide (l i ≠ LRes.N)) then LRes.D
          else LRes.N
  | Variant.tictacku => computeBigResultTictacku l

/-- TS `initialState()` (engine.ts lines 74-85). -/
def initialState : GameState where
  boards := fun _ _ => none
  locals := fun _ => LRes.N
  nextBoard := none
  turn := Player.X
  result := LRes.N
  cubeValue := 1
  cubeOwner := none
  pendingDouble := none

/-- TS `cloneBoards(boards)` (engine.ts lines 87-89): with pure values a deep
copy is the identity. -/
def cloneBoards (boards : Fin 9 → Fin 9 → Cell) : Fin 9 → Fin 9 → Cell :=
  boards

/-- TS `canDouble(state)` (engine.ts lines 92-98). -/
def canDouble (s : GameState) : Bool :=
  if s.result ≠ LRes.N then false
  else if s.pendingDouble ≠ none then false
  else if 64 ≤ s.cubeValue then false
  else decide (s.cubeOwner = none ∨ s.cubeOwner = some s.turn)

/-- TS `legalMoves(state)` (engine.ts lines 101-115). -/
def legalMoves (s : GameState) : List Move :=
  if s.result ≠ LRes.N then []
  else
    (List.finRange 9).flatMap (fun bi =>
      if s.locals bi ≠ LRes.N then []
      else if (match s.nextBoard with
               | some nb => decide (nb ≠ bi)
               | none => false) then []
      else ((List.finRange 9).filter (fun ci => decide (s.boards bi ci = none))).map
        (fun ci => Move.mk bi ci))

/-- TS `isLegalMove(state, move)` (engine.ts lines 118-124). -/
def isLegalMove (s : GameState) (m : Move) : Bool :=
  if s.result ≠ LRes.N then false
  else if s.locals m.bi ≠ LRes.N then false
  else if (match s.nextBoard with
           | some nb => decide (nb ≠ m.bi)
           | none => false) then false
  else if s.boards m.bi m.ci ≠ none then false
  else true

/-- TS `applyMove(state, move, variant)` (state.ts lines 13-40).  The played
row `boards[bi]` — to which the turn's mark was just assigned — is bound once
as `newRow`, so that `local[bi] = computeLocalResult(boards[bi])` reads it. -/
def applyMove (s : GameState) (m : Move) (v : Variant) : GameState :=
  let newRow := Function.update (s.boards m.bi) m.ci (some s.turn)
  let boards := Function.update (cloneBoards s.boards) m.bi newRow
  let locals := Function.update s.locals m.bi (computeLocalResult newRow)
  let nextBoard : Option (Fin 9) := if locals m.ci ≠ LRes.N then none else some m.ci
  let result := computeBigResult locals v
  { boards := boards
    locals := locals
    nextBoard := nextBoard
    turn := if result ≠ LRes.N then s.turn else other s.turn
    result := result
    cubeValue := s.cubeValue
    cubeOwner := s.cubeOwner
    pendingDouble := none }

/-- TS `offerDouble(state)` (state.ts lines 43-51). -/
def offerDouble (s : GameState) : GameState :=
  if canDouble s = false then s
  else { s with pendingDouble := some s.turn }

/-- TS `acceptDouble(state)` (state.ts lines 54-66). -/
def acceptDouble (s : GameState) : GameState :=
  match s.pendingDouble with
  | none => s
  | some doubler =>
      { s with
        cubeValue := s.cubeValue * 2
        cubeOwner := some (other doubler)
        pendingDouble := none }

/-- TS `declineDouble(state)` (state.ts lines 69-79). -/
def declineDouble (s : GameState) : GameState :=
  match s.pendingDouble with
  | none => s
  | some doubler =>
      { s with
        result := LRes.P doubler
        pendingDouble := none }

/-- ai.ts `countOpenLines(cells, player)` (lines 21-30): lines with no
opponent mark. -/
def countOpenLines (cells : Fin 9 → Cell) (p : Player) : Nat :=
  LINES.countP (fun l =>
    decide (cells l.1 ≠ some (other p) ∧ cells l.2.1 ≠ some (other p) ∧
            cells l.2.2 ≠ some (other p)))

/-- ai.ts `countInLine(cells, line, player)` (lines 33-35). -/
def countInLine (cells : Fin 9 → Cell) (l : Line) (p : Player) : Nat :=
  ([l.1, l.2.1, l.2.2].filter (fun i => decide (cells i = some p))).length

/-- TS `line.includes(i)` for a winning line. -/
def lineMem (i : Fin 9) (l : Line) : Bool :=
  decide (i = l.1 ∨ i = l.2.1 ∨ i = l.2.2)

/-- The board obtained by simulating a mark by player `p` at the move's cell
(ai.ts lines 45-46 / 77-78: `const b = boards[bi].slice(); b[ci] = p;`). -/
def simBoard (s : GameState) (m : Move) (p : Player) : Fin 9 → Cell :=
  Function.update (s.boards m.bi) m.ci (some p)

/-- `local` after recording the mover's simulated local win
(ai.ts line 51: `localAfter[bi] = turn`). -/
def localAfterWin (s : GameState) (m : Move) (p : Player) : Fin 9 → LRes :=
  Function.update s.locals m.bi (LRes.P p)

/-- Step 2 of `scoreMove` (ai.ts lines 57-74): local-board win bonus, plus, in
classic mode, +50 per meta line through `bi` on which the mover now has
exactly two boards. -/
def score2 (s : GameState) (m : Move) (v : Variant) : ℚ :=
  if evalWinner9 (simBoard s m s.turn) = some s.turn then
    match v with
    | Variant.tictacku => 120
    | Variant.classic =>
        100 + 50 * ((LINES.countP (fun l =>
          decide (countInLine (toBigCells (localAfterWin s m s.turn)) l s.turn = 2 ∧
                  lineMem m.bi l = true))) : ℚ)
  else 0

/-- Step 3 of `scoreMove` (ai.ts lines 77-82): block an opponent local win. -/
def score3 (s : GameState) (m : Move) (v : Variant) : ℚ :=
  if evalWinner9 (simBoard s m (other s.turn)) = some (other s.turn) then
    (if v = Variant.tictacku then 110 else 90)
  else 0

/-- Step 4 of `scoreMove` (ai.ts lines 85-91): block an opponent game win. -/
def score4 (s : GameState) (m : Move) (v : Variant) : ℚ :=
  if evalWinner9 (simBoard s m (other s.turn)) = some (other s.turn) ∧
     computeBigResult (localAfterWin s m (other s.turn)) v = LRes.P (other s.turn) then
    500
  else 0

/-- Step 5 of `scoreMove` (ai.ts lines 94-102): +15 per line through the cell
on which the mover goes from one mark to two with no opponent mark. -/
def score5 (s : GameState) (m : Move) : ℚ :=
  15 * ((LINES.countP (fun l =>
    decide (lineMem m.ci l = true ∧
            countInLine (s.boards m.bi) l s.turn = 1 ∧
            countInLine (simBoard s m s.turn) l s.turn = 2 ∧
            countInLine (s.boards m.bi) l (other s.turn) = 0))) : ℚ)

/-- Step 6 of `scoreMove` (ai.ts lines 105-112): +12 per line through the cell
where the opponent has exactly two marks and the mover none. -/
def score6 (s : GameState) (m : Move) : ℚ :=
  12 * ((LINES.countP (fun l =>
    decide (lineMem m.ci l = true ∧
            countInLine (s.boards m.bi) l (other s.turn) = 2 ∧
            countInLine (s.boards m.bi) l s.turn = 0))) : ℚ)

/-- Step 7 of `scoreMove` (ai.ts lines 115-116): center +6, corners +3. -/
def score7 (m : Move) : ℚ :=
  if m.ci = 4 then 6
  else if m.ci ∈ ([0, 2, 6, 8] : List (Fin 9)) then 3
  else 0

/-- Step 8 of `scoreMove` (ai.ts lines 118-141): effect of the board the
opponent is sent to. -/
def score8 (s : GameState) (m : Move) : ℚ :=
  if s.locals m.ci ≠ LRes.N then -20
  else
    (-25) * ((LINES.countP (fun l =>
      decide (countInLine (s.boards m.ci) l (other s.turn) = 2 ∧
              countInLine (s.boards m.ci) l s.turn = 0))) : ℚ) +
    8 * ((LINES.countP (fun l =>
      decide (countInLine (s.boards m.ci) l s.turn = 2 ∧
              countInLine (s.boards m.ci) l (other s.turn) = 0))) : ℚ)

/-- Step 9 of `scoreMove` (ai.ts line 144): 0.5 per open line. -/
def score9 (s : GameState) (m : Move) : ℚ :=
  ((countOpenLines (simBoard s m s.turn) s.turn : ℚ)) * (1 / 2)

/-- ai.ts `scoreMove(state, move, variant)` (lines 38-147).  Step 1 (lines
48-55) returns the sentinel 1000 when the simulated mark wins the local board
and that local win decides the meta-game for the mover; otherwise the
heuristic terms of steps 2-9 accumulate. -/
def scoreMove (s : GameState) (m : Move) (v : Variant) : ℚ :=
  if evalWinner9 (simBoard s m s.turn) = some s.turn ∧
     computeBigResult (localAfterWin s m s.turn) v = LRes.P s.turn then
    1000
  else
    score2 s m v + score3 s m v + score4 s m v + score5 s m +
    score6 s m + score7 m + score8 s m + score9 s m

/-- A move together with its score (ai.ts lines 164-167: `{...m, score}`). -/
structure ScoredMove : Type where
  move : Move
  score : ℚ
deriving DecidableEq, Repr

/-- The descending comparison used by `scored.sort((a, b) => b.score - a.score)`
(ai.ts line 170). -/
def scoreGE (a b : ScoredMove) : Prop :=
  b.score ≤ a.score

instance : DecidableRel scoreGE :=
  fun a b => inferInstanceAs (Decidable (b.score ≤ a.score))

instance : IsTotal ScoredMove scoreGE :=
  ⟨fun a b => le_total b.score a.score⟩

instance : IsTrans ScoredMove scoreGE :=
  ⟨fun _ _ _ h1 h2 => le_trans h2 h1⟩

/-- The difficulty-dependent tolerance of ai.ts lines 175-186. -/
def difficultyThreshold (d : Difficulty) : ℚ :=
  match d with
  | Difficulty.easy => 50
  | Difficulty.hard => 3
  | Difficulty.medium => 10

/-- ai.ts `pickMove(state, difficulty, variant)` (lines 154-190).  The two
`Math.random()` draws are passed in as `r1` (the easy-mode blunder gate,
line 159) and `r2` (the uniform selection index, lines 160 and 189); both are
rationals in `[0,1)`.  `Math.floor(r * length)` becomes
`(⌊r * length⌋).toNat`. -/
def pickMove (s : GameState) (d : Difficulty) (v : Variant) (r1 r2 : ℚ) :
    Option Move :=
  if (legalMoves s).isEmpty then none
  else if d = Difficulty.easy ∧ r1 < 15 / 100 then
    getElem? (legalMoves s) (⌊r2 * ((legalMoves s).length : ℚ)⌋).toNat
  else
    match List.insertionSort scoreGE
        ((legalMoves s).map (fun m => ScoredMove.mk m (scoreMove s m v))) with
    | [] => none
    | top0 :: rest =>
        (getElem?
          ((top0 :: rest).filter (fun sm =>
            decide (top0.score - difficultyThreshold d ≤ sm.score)))
          (⌊r2 * ((((top0 :: rest).filter (fun sm =>
            decide (top0.score - difficultyThreshold d ≤ sm.score))).length : ℕ)
            : ℚ)⌋).toNat).map ScoredMove.move

namespace SwiftPort

/-!
The Swift port (`swift/Sources/NineToesEngine/Engine.swift`, `State.swift`).
Its `LocalResult` sum type (`.player p`/`.draw`/`.undecided`) corresponds to
`LRes.P p`/`LRes.D`/`LRes.N`, and its `GameState` struct has field-for-field
the same components as the TypeScript `GameState`, so both ports are embedded
over the same Lean state type and the evident correspondence between the two
encodings is the identity.
-/

/-- Swift `evalWinner9` (Engine.swift lines 115-123): same fixed line order. -/
def evalWinner9 (cells : Fin 9 → Cell) : Option Player :=
  LINES.findSome? (fun l =>
    match cells l.1 with
    | some v => if cells l.2.1 = some v ∧ cells l.2.2 = some v then some v else none
    | none => none)

/-- Swift `isFull9` (Engine.swift lines 137-139). -/
def isFull9 (cells : Fin 9 → Cell) : Bool :=
  (List.finRange 9).all (fun i => (cells i).isSome)

/-- Swift `computeLocalResult` (Engine.swift lines 142-150). -/
def computeLocalResult (cells : Fin 9 → Cell) : LRes :=
  match evalWinner9 cells with
  | some w => LRes.P w
  | none => if isFull9 cells then LRes.D else LRes.N

/-- Swift `computeBigResult` (Engine.swift lines 153-169): classic rules only
(the Swift port has no variant parameter). -/
def computeBigResult (l : Fin 9 → LRes) : LRes :=
  match evalWinner9 (fun i =>
    match l i with
    | LRes.P p => some p
    | LRes.D => none
    | LRes.N => none) with
  | some w => LRes.P w
  | none =>
      if (List.finRange 9).all (fun i => decide (l i ≠ LRes.N)) then LRes.D
      else LRes.N

/-- Swift `applyMove` (State.swift lines 6-40). -/
def applyMove (s : GameState) (m : Move) : GameState :=
  let newRow := Function.update (s.boards m.bi) m.ci (some s.turn)
  let boards := Function.update s.boards m.bi newRow
  let locals := Function.update s.locals m.bi (computeLocalResult newRow)
  let nextBoard : Option (Fin 9) := if locals m.ci ≠ LRes.N then none else some m.ci
  let result := computeBigResult locals
  { boards := boards
    locals := locals
    nextBoard := nextBoard
    turn := if result = LRes.N then other s.turn else s.turn
    result := result
    cubeValue := s.cubeValue
    cubeOwner := s.cubeOwner
    pendingDouble := none }

end SwiftPort

/-- One transition of the game state machine (spec §4.3): a legal move, a
double offer, an acceptance, or a decline. -/
inductive Step (v : Variant) : GameState → GameState → Prop
  | move (s : GameState) (m : Move) (h : isLegalMove s m = true) :
      Step v s (applyMove s m v)
  | offer (s : GameState) : Step v s (offerDouble s)
  | accept (s : GameState) : Step v s (acceptDouble s)
  | decline (s : GameState) : Step v s (declineDouble s)

/-- A state reachable from the initial state by transitions. -/
def Reachable (v : Variant) (s : GameState) : Prop :=
  Relation.ReflTransGen (Step v) initialState s

/-- A transition that is not a declined double. -/
inductive StepND (v : Variant) : GameState → GameState → Prop
  | move (s : GameState) (m : Move) (h : isLegalMove s m = true) :
      StepND v s (applyMove s m v)
  | offer (s : GameState) : StepND v s (offerDouble s)
  | accept (s : GameState) : StepND v s (acceptDouble s)

/-- A state reachable from the initial state without any declined double. -/
def ReachableND (v : Variant) (s : GameState) : Prop :=
  Relation.ReflTransGen (StepND v) initialState s

lemma other_ne (p : Player) : other p ≠ p := by
  cases p <;> simp [other]

lemma mem_legalMoves (s : GameState) (m : Move) :
    m ∈ legalMoves s ↔
      s.result = LRes.N ∧ s.locals m.bi = LRes.N ∧
      (s.nextBoard = none ∨ s.nextBoard = some m.bi) ∧
      s.boards m.bi m.ci = none := by
  rcases m with ⟨bi, ci⟩
  unfold legalMoves
  by_cases hr : s.result = LRes.N
  case neg =>
    rw [if_pos (by simpa using hr)]
    simp [hr]
  rw [if_neg (by simpa using hr)]
  rw [List.mem_flatMap]
  constructor
  · rintro ⟨b, -, hb⟩
    by_cases hl : s.locals b = LRes.N
    case neg =>
      rw [if_pos (by simpa using hl)] at hb
      cases hb
    rw [if_neg (by simpa using hl)] at hb
    rcases hnb : s.nextBoard with _ | nb
    · rw [hnb] at hb
      rw [if_neg (by simp)] at hb
      rw [List.mem_map] at hb
      rcases hb with ⟨c, hc, he⟩
      rw [List.mem_filter, decide_eq_true_eq] at hc
      rw [Move.mk.injEq] at he
      obtain ⟨rfl, rfl⟩ := he
      exact ⟨hr, hl, Or.inl rfl, hc.2⟩
    · rw [hnb] at hb
      by_cases hbb : nb = b
      case neg =>
        rw [if_pos (by simpa using hbb)] at hb
        cases hb
      rw [if_neg (by simpa using hbb)] at hb
      rw [List.mem_map] at hb
      rcases hb with ⟨c, hc, he⟩
      rw [List.mem_filter, decide_eq_true_eq] at hc
      rw [Move.mk.injEq] at he
      obtain ⟨rfl, rfl⟩ := he
      exact ⟨hr, hl, Or.inr (by simp [hnb, hbb]), hc.2⟩
  · rintro ⟨-, hl, hor, hc⟩
    refine ⟨bi, List.mem_finRange bi, ?_⟩
    rw [if_neg (by simpa using hl)]
    have hstep :
        (match s.nextBoard with
          | some nb => decide (nb ≠ bi)
          | none => false) = false := by
      rcases hor with h | h <;> rw [h] <;> simp
    rw [hstep]
    rw [if_neg (by simp)]
    rw [List.mem_map]
    exact ⟨ci, by rw [List.mem_filter, decide_eq_true_eq]
                  exact ⟨List.mem_finRange ci, hc⟩, rfl⟩

lemma isLegalMove_iff (s : GameState) (m : Move) :
    isLegalMove s m = true ↔
      s.result = LRes.N ∧ s.locals m.bi = LRes.N ∧
      (s.nextBoard = none ∨ s.nextBoard = some m.bi) ∧
      s.boards m.bi m.ci = none := by
  unfold isLegalMove
  rcases hnb : s.nextBoard with _ | nb <;>
    by_cases hr : s.result = LRes.N <;>
      by_cases hl : s.locals m.bi = LRes.N <;>
        by_cases hc : s.boards m.bi m.ci = none <;>
          simp [hr, hl, hc, hnb] <;>
          by_cases hbb : nb = m.bi <;> simp [hbb] <;> tauto

lemma legalMoves_of_decided (s : GameState) (h : s.result ≠ LRes.N) :
    legalMoves s = [] := by
  unfold legalMoves
  simp [h]

/-- C7: for every state and every move with in-range indices, membership in
`legalMoves` coincides with `isLegalMove`; `legalMoves` is empty once the
meta-result is decided, and otherwise consists exactly of the empty cells of
each undecided, unconstrained-or-forced board. -/
theorem legalMoves_characterization (s : GameState) (m : Move) :
    (m ∈ legalMoves s ↔ isLegalMove s m = true) ∧
    (s.result ≠ LRes.N → legalMoves s = []) ∧
    (m ∈ legalMoves s ↔
      s.result = LRes.N ∧ s.locals m.bi = LRes.N ∧
      (s.nextBoard = none ∨ s.nextBoard = some m.bi) ∧
      s.boards m.bi m.ci = none) :=
  ⟨(mem_legalMoves s m).trans (isLegalMove_iff s m).symm,
   legalMoves_of_decided s,
   mem_legalMoves s m⟩

/-- C7 witness: on a state whose meta-result is decided, the move list is
empty; on the initial state, the move (0,0) is both in `legalMoves` and
accepted by `isLegalMove`. -/
theorem legalMoves_characterization_witness :
    legalMoves { initialState with result := LRes.P Player.X } = [] ∧
    (Move.mk 0 0 ∈ legalMoves initialState ↔
      isLegalMove initialState (Move.mk 0 0) = true) :=
  ⟨(legalMoves_characterization { initialState with result := LRes.P Player.X }
      (Move.mk 0 0)).2.1 (by decide),
   (legalMoves_characterization initialState (Move.mk 0 0)).1⟩

/-- C8: accepting or declining with no pending double, and offering when
`canDouble` is false, are silent no-ops returning the input state. -/
theorem double_noops (s : GameState) :
    (s.pendingDouble = none → acceptDouble s = s ∧ declineDouble s = s) ∧
    (canDouble s = false → offerDouble s = s) := by
  constructor
  · intro h
    constructor
    · unfold acceptDouble
      rw [h]
    · unfold declineDouble
      rw [h]
  · intro h
    unfold offerDouble
    rw [if_pos h]

/-- C8 witness: the initial state has no pending double, so accept and decline
leave it unchanged; a finished game disallows doubling, so offering on it is a
no-op. -/
theorem double_noops_witness :
    acceptDouble initialState = initialState ∧
    declineDouble initialState = initialState ∧
    offerDouble { initialState with result := LRes.P Player.X } =
      { initialState with result := LRes.P Player.X } :=
  ⟨((double_noops initialState).1 rfl).1,
   ((double_noops initialState).1 rfl).2,
   (double_noops { initialState with result := LRes.P Player.X }).2 (by decide)⟩

/-- C9: when `canDouble` holds, `offerDouble` sets `pendingDouble` to the
player to move and leaves every other field unchanged. -/
theorem offerDouble_frame (s : GameState) (h : canDouble s = true) :
    (offerDouble s).boards = s.boards ∧
    (offerDouble s).locals = s.locals ∧
    (offerDouble s).nextBoard = s.nextBoard ∧
    (offerDouble s).turn = s.turn ∧
    (offerDouble s).result = s.result ∧
    (offerDouble s).cubeValue = s.cubeValue ∧
    (offerDouble s).cubeOwner = s.cubeOwner ∧
    (offerDouble s).pendingDouble = some s.turn := by
  unfold offerDouble
  rw [if_neg (by simp [h])]
  exact ⟨rfl, rfl, rfl, rfl, rfl, rfl, rfl, rfl⟩

/-- C9 witness: the initial state allows a double, and offering there changes
only `pendingDouble`. -/
theorem offerDouble_frame_witness :
    canDouble initialState = true ∧
    (offerDouble initialState).cubeValue = initialState.cubeValue ∧
    (offerDouble initialState).pendingDouble = some initialState.turn :=
  ⟨by decide,
   (offerDouble_frame initialState (by decide)).2.2.2.2.2.1,
   (offerDouble_frame initialState (by decide)).2.2.2.2.2.2.2⟩

/-- C1: under the "first-to-5-of-9" variant, a local-results vector in which a
player has won exactly 5 boards while the remaining 4 are undecided is an
immediate meta-win for that player. -/
theorem tictacku_five_of_nine_wins (l : Fin 9 → LRes) (p : Player)
    (h5 : winCount l p = 5) (hrest : ∀ i, l i = LRes.P p ∨ l i = LRes.N) :
    computeBigResult l Variant.tictacku = LRes.P p := by
  have hred : computeBigResult l Variant.tictacku = computeBigResultTictacku l := rfl
  rw [hred]
  unfold computeBigResultTictacku
  cases p with
  | X => rw [if_pos (le_of_eq h5.symm)]
  | O =>
      have hx : winCount l Player.X = 0 := by
        unfold winCount
        rw [List.countP_eq_zero]
        intro i _
        rcases hrest i with h | h <;> simp [h]
      rw [if_neg (by rw [hx]; decide), if_pos (le_of_eq h5.symm)]

/-- C1 witness: boards 0-4 won by X, boards 5-8 undecided. -/
theorem tictacku_five_of_nine_wins_witness :
    winCount (fun i : Fin 9 => if i.val < 5 then LRes.P Player.X else LRes.N)
      Player.X = 5 ∧
    computeBigResult
      (fun i : Fin 9 => if i.val < 5 then LRes.P Player.X else LRes.N)
      Variant.tictacku = LRes.P Player.X :=
  ⟨by decide,
   tictacku_five_of_nine_wins
     (fun i : Fin 9 => if i.val < 5 then LRes.P Player.X else LRes.N)
     Player.X (by decide) (by decide)⟩

/-- C5: `applyMove` forwards the opponent to the board indexed by the played
cell unless that board is decided after the move (then free choice), and flips
the turn unless the move decided the meta-game; in particular the move
(board 0, cell 5) from the initial state forwards to board 5 and hands the
turn to the second player. -/
theorem applyMove_nextBoard_turn (v : Variant) (s : GameState) (m : Move)
    (h : isLegalMove s m = true) :
    ((applyMove s m v).locals m.ci ≠ LRes.N → (applyMove s m v).nextBoard = none) ∧
    ((applyMove s m v).locals m.ci = LRes.N →
      (applyMove s m v).nextBoard = some m.ci) ∧
    ((applyMove s m v).result = LRes.N → (applyMove s m v).turn = other s.turn) ∧
    ((applyMove s m v).result ≠ LRes.N → (applyMove s m v).turn = s.turn) ∧
    (applyMove initialState (Move.mk 0 5) v).nextBoard = some 5 ∧
    (applyMove initialState (Move.mk 0 5) v).turn = other initialState.turn := by
  refine ⟨?_, ?_, ?_, ?_, ?_, ?_⟩
  · intro hd
    simp only [applyMove] at hd ⊢
    rw [if_pos hd]
  · intro hd
    simp only [applyMove] at hd ⊢
    rw [if_neg (by simp [hd])]
  · intro hd
    simp only [applyMove] at hd ⊢
    rw [if_neg (by simp [hd])]
  · intro hd
    simp only [applyMove] at hd ⊢
    rw [if_pos hd]
  · cases v <;> decide
  · cases v <;> decide

/-- C5 witness: the scenario itself, through the theorem at the initial
state. -/
theorem applyMove_nextBoard_turn_witness :
    (applyMove initialState (Move.mk 0 5) Variant.classic).nextBoard = some 5 ∧
    (applyMove initialState (Move.mk 0 5) Variant.classic).turn =
      other initialState.turn :=
  ⟨(applyMove_nextBoard_turn Variant.classic initialState (Move.mk 0 5)
      (by decide)).2.2.2.2.1,
   (applyMove_nextBoard_turn Variant.classic initialState (Move.mk 0 5)
      (by decide)).2.2.2.2.2⟩

/-- C10: the Swift port's `applyMove` agrees extensionally with the TypeScript
`applyMove` in classic mode on every state and move. -/
theorem swift_applyMove_refines_ts (s : GameState) (m : Move) :
    SwiftPort.applyMove s m = applyMove s m Variant.classic := by
  have hbig : ∀ l : Fin 9 → LRes,
      SwiftPort.computeBigResult l = computeBigResult l Variant.classic :=
    fun _ => rfl
  have hloc : SwiftPort.computeLocalResult = computeLocalResult := rfl
  unfold SwiftPort.applyMove applyMove cloneBoards
  simp only [hbig, hloc]
  by_cases h : computeBigResult
      (Function.update s.locals m.bi (computeLocalResult
        (Function.update (s.boards m.bi) m.ci (some s.turn))))
      Variant.classic = LRes.N <;>
    simp [h]

lemma offerDouble_fields (s : GameState) :
    (offerDouble s).boards = s.boards ∧ (offerDouble s).locals = s.locals ∧
    (offerDouble s).result = s.result ∧
    (offerDouble s).cubeValue = s.cubeValue := by
  unfold offerDouble
  by_cases h : canDouble s = false <;> simp [h]

lemma acceptDouble_fields (s : GameState) :
    (acceptDouble s).boards = s.boards ∧ (acceptDouble s).locals = s.locals ∧
    (acceptDouble s).result = s.result := by
  unfold acceptDouble
  cases s.pendingDouble <;> simp

lemma declineDouble_fields (s : GameState) :
    (declineDouble s).boards = s.boards ∧ (declineDouble s).locals = s.locals ∧
    (declineDouble s).cubeValue = s.cubeValue := by
  unfold declineDouble
  cases s.pendingDouble <;> simp

lemma applyMove_boards (s : GameState) (m : Move) (v : Variant) :
    (applyMove s m v).boards =
      Function.update s.boards m.bi
        (Function.update (s.boards m.bi) m.ci (some s.turn)) := rfl

lemma applyMove_locals (s : GameState) (m : Move) (v : Variant) :
    (applyMove s m v).locals =
      Function.update s.locals m.bi
        (computeLocalResult
          (Function.update (s.boards m.bi) m.ci (some s.turn))) := rfl

lemma applyMove_result (s : GameState) (m : Move) (v : Variant) :
    (applyMove s m v).result = computeBigResult (applyMove s m v).locals v := rfl

/-- A legal move preserves the cached-local-results invariant. -/
lemma applyMove_locals_consistent (s : GameState) (m : Move) (v : Variant)
    (hK : ∀ i, s.locals i = computeLocalResult (s.boards i)) :
    ∀ i, (applyMove s m v).locals i =
      computeLocalResult ((applyMove s m v).boards i) := by
  intro i
  rw [applyMove_locals, applyMove_boards]
  by_cases hib : i = m.bi
  · subst hib
    rw [Function.update_same, Function.update_same]
  · rw [Function.update_noteq hib, Function.update_noteq hib]
    exact hK i

/-- Along any transition, the cached local results stay consistent. -/
lemma step_locals_consistent {v : Variant} {s s' : GameState} (h : Step v s s')
    (hK : ∀ i, s.locals i = computeLocalResult (s.boards i)) :
    ∀ i, s'.locals i = computeLocalResult (s'.boards i) := by
  cases h with
  | move m hm => exact applyMove_locals_consistent s m v hK
  | offer =>
      intro i
      rw [(offerDouble_fields s).1, (offerDouble_fields s).2.1]
      exact hK i
  | accept =>
      intro i
      rw [(acceptDouble_fields s).1, (acceptDouble_fields s).2.1]
      exact hK i
  | decline =>
      intro i
      rw [(declineDouble_fields s).1, (declineDouble_fields s).2.1]
      exact hK i

lemma initial_locals_consistent :
    ∀ i, initialState.locals i = computeLocalResult (initialState.boards i) := by
  decide

/-- Every reachable state has consistent cached local results. -/
lemma reachable_locals_consistent {v : Variant} {s : GameState}
    (h : Reachable v s) :
    ∀ i, s.locals i = computeLocalResult (s.boards i) := by
  induction h with
  | refl => exact initial_locals_consistent
  | tail _ hstep ih => exact step_locals_consistent hstep ih

/-- One transition preserves "meta-result cache consistent or game over". -/
lemma step_result_cache {v : Variant} {s s' : GameState} (h : Step v s s')
    (hJ : s.result = computeBigResult s.locals v ∨ s.result ≠ LRes.N) :
    s'.result = computeBigResult s'.locals v ∨ s'.result ≠ LRes.N := by
  cases h with
  | move m hm => exact Or.inl (applyMove_result s m v)
  | offer =>
      rw [(offerDouble_fields s).2.2.1, (offerDouble_fields s).2.1]
      exact hJ
  | accept =>
      rw [(acceptDouble_fields s).2.2, (acceptDouble_fields s).2.1]
      exact hJ
  | decline =>
      unfold declineDouble
      rcases hp : s.pendingDouble with _ | doubler
      · simp only [hp]
        exact hJ
      · simp only [hp]
        exact Or.inr (by simp)

/-- Every reachable state either has its meta-result cache consistent, or the
game has ended (possibly by a declined double). -/
lemma reachable_result_cache {v : Variant} {s : GameState} (h : Reachable v s) :
    s.result = computeBigResult s.locals v ∨ s.result ≠ LRes.N := by
  induction h with
  | refl => exact Or.inl (by cases v <;> decide)
  | tail _ hstep ih => exact step_result_cache hstep ih

/-- Along a decline-free transition, the meta-result cache stays consistent. -/
lemma stepND_result_cache {v : Variant} {s s' : GameState} (h : StepND v s s')
    (hJ : s.result = computeBigResult s.locals v) :
    s'.result = computeBigResult s'.locals v := by
  cases h with
  | move m hm => exact applyMove_result s m v
  | offer =>
      rw [(offerDouble_fields s).2.2.1, (offerDouble_fields s).2.1]
      exact hJ
  | accept =>
      rw [(acceptDouble_fields s).2.2, (acceptDouble_fields s).2.1]
      exact hJ

lemma stepND_is_step {v : Variant} {s s' : GameState} (h : StepND v s s') :
    Step v s s' := by
  cases h with
  | move m hm => exact Step.move s m hm
  | offer => exact Step.offer s
  | accept => exact Step.accept s

lemma reachableND_is_reachable {v : Variant} {s : GameState}
    (h : ReachableND v s) : Reachable v s := by
  induction h with
  | refl => exact Relation.ReflTransGen.refl
  | tail _ hstep ih => exact Relation.ReflTransGen.tail ih (stepND_is_step hstep)

/-- C2 (amended): along every reachable state the cached local results agree
with `computeLocalResult` of the boards, and along every state reachable
without a declined double, the cached meta-result additionally agrees with
`computeBigResult(local, variant)`.  (The unamended claim fails because
`declineDouble` sets `result` to the doubler directly; see the
counterexample.) -/
theorem reachable_cache_invariant_amended :
    (∀ (v : Variant) (s : GameState), Reachable v s →
        ∀ i, s.locals i = computeLocalResult (s.boards i)) ∧
    (∀ (v : Variant) (s : GameState), ReachableND v s →
        (∀ i, s.locals i = computeLocalResult (s.boards i)) ∧
        s.result = computeBigResult s.locals v) := by
  constructor
  · intro v s h
    exact reachable_locals_consistent h
  · intro v s h
    refine ⟨reachable_locals_consistent (reachableND_is_reachable h), ?_⟩
    induction h with
    | refl => cases v <;> decide
    | tail _ hstep ih => exact stepND_result_cache hstep ih

/-- C2 counterexample: offering and then declining a double from the initial
state reaches a state whose `result` is the doubler while
`computeBigResult(local, classic)` is still undecided — the claimed invariant
fails on reachable states. -/
theorem decline_breaks_result_cache :
    Reachable Variant.classic (declineDouble (offerDouble initialState)) ∧
    ¬((declineDouble (offerDouble initialState)).result =
        computeBigResult (declineDouble (offerDouble initialState)).locals
          Variant.classic) :=
  ⟨Relation.ReflTransGen.tail
      (Relation.ReflTransGen.single (Step.offer initialState))
      (Step.decline (offerDouble initialState)),
   by decide⟩

/-- C2 witness: after one legal move from the initial state (a decline-free
sequence), both cache equations hold. -/
theorem reachable_cache_invariant_witness :
    (applyMove initialState (Move.mk 0 5) Variant.classic).result =
      computeBigResult
        (applyMove initialState (Move.mk 0 5) Variant.classic).locals
        Variant.classic :=
  (reachable_cache_invariant_amended.2 Variant.classic
      (applyMove initialState (Move.mk 0 5) Variant.classic)
      (Relation.ReflTransGen.single
        (StepND.move initialState (Move.mk 0 5) (by decide)))).2

lemma canDouble_cube_lt (s : GameState) (h : canDouble s = true) :
    s.cubeValue < 64 := by
  unfold canDouble at h
  split_ifs at h with h1 h2 h3
  all_goals first
    | exact Bool.noConfusion h
    | omega

/-- The joint cube invariant: the cube value is one of the seven legal powers
of two, and while a double is pending it is at most 32 (so accepting cannot
push it past 64). -/
def CubeInv (s : GameState) : Prop :=
  s.cubeValue ∈ ([1, 2, 4, 8, 16, 32, 64] : List Nat) ∧
  (s.pendingDouble ≠ none → s.cubeValue ≤ 32)

lemma step_cubeInv {v : Variant} {s s' : GameState} (h : Step v s s')
    (hI : CubeInv s) : CubeInv s' := by
  obtain ⟨hmem, hpend⟩ := hI
  cases h with
  | move m hm =>
      refine ⟨hmem, ?_⟩
      intro hp
      exact absurd rfl hp
  | offer =>
      unfold offerDouble
      by_cases hc : canDouble s = false
      · rw [if_pos hc]
        exact ⟨hmem, hpend⟩
      · rw [if_neg hc]
        have hlt : s.cubeValue < 64 :=
          canDouble_cube_lt s (by revert hc; cases canDouble s <;> simp)
        refine ⟨hmem, fun _ => ?_⟩
        show s.cubeValue ≤ 32
        simp only [List.mem_cons, List.not_mem_nil, or_false] at hmem
        rcases hmem with h | h | h | h | h | h | h <;> omega
  | accept =>
      unfold acceptDouble
      rcases hp : s.pendingDouble with _ | doubler
      · exact ⟨hmem, hpend⟩
      · have h32 : s.cubeValue ≤ 32 := hpend (by simp [hp])
        constructor
        · show s.cubeValue * 2 ∈ ([1, 2, 4, 8, 16, 32, 64] : List Nat)
          simp only [List.mem_cons, List.not_mem_nil, or_false] at hmem ⊢
          rcases hmem with h | h | h | h | h | h | h <;> omega
        · intro hfalse
          exact absurd rfl hfalse
  | decline =>
      unfold declineDouble
      rcases hp : s.pendingDouble with _ | doubler
      · exact ⟨hmem, hpend⟩
      · refine ⟨hmem, fun hfalse => absurd rfl hfalse⟩

lemma reachable_cubeInv {v : Variant} {s : GameState} (h : Reachable v s) :
    CubeInv s := by
  induction h with
  | refl => exact ⟨by decide, fun hp => absurd rfl hp⟩
  | tail _ hstep ih => exact step_cubeInv hstep ih

lemma step_cube_mono {v : Variant} {s s' : GameState} (h : Step v s s') :
    s.cubeValue ≤ s'.cubeValue := by
  cases h with
  | move m hm => exact le_of_eq rfl
  | offer => exact le_of_eq (offerDouble_fields s).2.2.2.symm
  | accept =>
      unfold acceptDouble
      rcases hp : s.pendingDouble with _ | doubler
      · exact le_refl _
      · simp only []
        omega
  | decline => exact le_of_eq (declineDouble_fields s).2.2.symm

/-- C4: along every transition sequence the cube value is non-decreasing; on
reachable states it stays in {1,2,4,8,16,32,64} (hence never exceeds 64); and
it is unchanged by apply-move, offer-double and decline-double, while
accept-double either leaves the state alone (no pending double) or exactly
doubles it. -/
theorem cube_value_invariants :
    (∀ (v : Variant) (s : GameState), Reachable v s →
        s.cubeValue ∈ ([1, 2, 4, 8, 16, 32, 64] : List Nat) ∧ s.cubeValue ≤ 64) ∧
    (∀ (v : Variant) (s s' : GameState), Relation.ReflTransGen (Step v) s s' →
        s.cubeValue ≤ s'.cubeValue) ∧
    (∀ (v : Variant) (s : GameState) (m : Move),
        (applyMove s m v).cubeValue = s.cubeValue) ∧
    (∀ s : GameState, (offerDouble s).cubeValue = s.cubeValue) ∧
    (∀ s : GameState, (declineDouble s).cubeValue = s.cubeValue) ∧
    (∀ s : GameState,
        (s.pendingDouble = none ∧ acceptDouble s = s) ∨
        (s.pendingDouble ≠ none ∧
          (acceptDouble s).cubeValue = s.cubeValue * 2)) := by
  refine ⟨?_, ?_, ?_, ?_, ?_, ?_⟩
  · intro v s h
    have hmem := (reachable_cubeInv h).1
    refine ⟨hmem, ?_⟩
    simp only [List.mem_cons, List.not_mem_nil, or_false] at hmem
    omega
  · intro v s s' h
    induction h with
    | refl => exact le_refl _
    | tail _ hstep ih => exact le_trans ih (step_cube_mono hstep)
  · intro v s m
    rfl
  · intro s
    exact (offerDouble_fields s).2.2.2
  · intro s
    exact (declineDouble_fields s).2.2
  · intro s
    rcases hp : s.pendingDouble with _ | doubler
    · exact Or.inl ⟨rfl, by unfold acceptDouble; rw [hp]⟩
    · refine Or.inr ⟨by simp [hp], ?_⟩
      unfold acceptDouble
      rw [hp]

/-- C4 witness: offering then accepting from the initial state doubles the
cube from 1 to 2, the result is a legal cube value, and the sequence is
monotone. -/
theorem cube_value_invariants_witness :
    (acceptDouble (offerDouble initialState)).cubeValue ∈
      ([1, 2, 4, 8, 16, 32, 64] : List Nat) ∧
    initialState.cubeValue ≤ (acceptDouble (offerDouble initialState)).cubeValue :=
  ⟨(cube_value_invariants.1 Variant.classic
      (acceptDouble (offerDouble initialState))
      (Relation.ReflTransGen.tail
        (Relation.ReflTransGen.single (Step.offer initialState))
        (Step.accept (offerDouble initialState)))).1,
   cube_value_invariants.2.1 Variant.classic initialState
      (acceptDouble (offerDouble initialState))
      (Relation.ReflTransGen.tail
        (Relation.ReflTransGen.single (Step.offer initialState))
        (Step.accept (offerDouble initialState)))⟩

/-- One transition never clears or changes an occupied cell. -/
lemma step_boards_persist {v : Variant} {s s' : GameState} (h : Step v s s')
    (bi ci : Fin 9) (p : Player) (hc : s.boards bi ci = some p) :
    s'.boards bi ci = some p := by
  cases h with
  | move m hm =>
      have hemp : s.boards m.bi m.ci = none :=
        ((isLegalMove_iff s m).mp hm).2.2.2
      rw [applyMove_boards]
      by_cases hib : bi = m.bi
      · subst hib
        rw [Function.update_same]
        by_cases hic : ci = m.ci
        · subst hic
          rw [hc] at hemp
          cases hemp
        · rw [Function.update_noteq hic]
          exact hc
      · rw [Function.update_noteq hib]
        exact hc
  | offer =>
      rw [(offerDouble_fields s).1]
      exact hc
  | accept =>
      rw [(acceptDouble_fields s).1]
      exact hc
  | decline =>
      rw [(declineDouble_fields s).1]
      exact hc

/-- C6: along every transition sequence in which moves are only applied when
`isLegalMove` accepts them (as the step relation requires), a cell holding a
player's mark is never cleared or changed by a later transition. -/
theorem occupied_cells_persist (v : Variant) (s s' : GameState)
    (h : Relation.ReflTransGen (Step v) s s') (bi ci : Fin 9) (p : Player)
    (hc : s.boards bi ci = some p) : s'.boards bi ci = some p := by
  induction h with
  | refl => exact hc
  | tail _ hstep ih => exact step_boards_persist hstep bi ci p ih

/-- C6 witness: the X placed at (board 0, cell 5) by the first move survives
the second move. -/
theorem occupied_cells_persist_witness :
    (applyMove (applyMove initialState (Move.mk 0 5) Variant.classic)
        (Move.mk 5 3) Variant.classic).boards 0 5 = some Player.X :=
  occupied_cells_persist Variant.classic
    (applyMove initialState (Move.mk 0 5) Variant.classic)
    (applyMove (applyMove initialState (Move.mk 0 5) Variant.classic)
      (Move.mk 5 3) Variant.classic)
    (Relation.ReflTransGen.single
      (Step.move (applyMove initialState (Move.mk 0 5) Variant.classic)
        (Move.mk 5 3) (by decide)))
    0 5 Player.X (by decide)

lemma lineWinner_eq_some_iff (cells : Fin 9 → Cell) (l : Line) (p : Player) :
    lineWinner cells l = some p ↔
      cells l.1 = some p ∧ cells l.2.1 = some p ∧ cells l.2.2 = some p := by
  unfold lineWinner
  rcases h1 : cells l.1 with _ | v
  · simp [h1]
  · dsimp only
    by_cases h23 : cells l.2.1 = some v ∧ cells l.2.2 = some v
    · rw [if_pos h23]
      constructor
      · intro he
        injection he with he
        subst he
        exact ⟨rfl, h23.1, h23.2⟩
      · rintro ⟨ha, -, -⟩
        exact ha
    · rw [if_neg h23]
      constructor
      · intro he
        cases he
      · rintro ⟨ha, hb, hc⟩
        injection ha with ha
        subst ha
        exact absurd ⟨hb, hc⟩ h23

lemma evalWinner9_some (cells : Fin 9 → Cell) (p : Player)
    (h : evalWinner9 cells = some p) :
    ∃ l ∈ LINES, cells l.1 = some p ∧ cells l.2.1 = some p ∧
      cells l.2.2 = some p := by
  obtain ⟨l, hl, hw⟩ := List.exists_of_findSome?_eq_some h
  exact ⟨l, hl, (lineWinner_eq_some_iff cells l p).mp hw⟩

lemma evalWinner9_none (cells : Fin 9 → Cell) (p : Player)
    (h : evalWinner9 cells = none) :
    ∀ l ∈ LINES, ¬(cells l.1 = some p ∧ cells l.2.1 = some p ∧
      cells l.2.2 = some p) := by
  intro l hl hc
  have hw := List.findSome?_eq_none_iff.mp h l hl
  rw [(lineWinner_eq_some_iff cells l p).mpr hc] at hw
  cases hw

set_option maxRecDepth 10000 in
lemma lines_mem_countP_le :
    ∀ i : Fin 9, LINES.countP (fun l => lineMem i l) ≤ 4 := by
  decide

set_option maxRecDepth 10000 in
lemma lines_entries_distinct :
    ∀ l ∈ LINES, l.1 ≠ l.2.1 ∧ l.1 ≠ l.2.2 ∧ l.2.1 ≠ l.2.2 := by
  decide

/-- Counting helper: a predicate implied by `q` that fails on some listed
element on which `q` holds counts strictly below `q`. -/
lemma countP_succ_le_of_witness {α : Type} (L : List α) (p q : α → Bool)
    (l₀ : α) (h₀ : l₀ ∈ L) (himp : ∀ x ∈ L, p x = true → q x = true)
    (hp : p l₀ = false) (hq : q l₀ = true) :
    L.countP p + 1 ≤ L.countP q := by
  induction L with
  | nil => cases h₀
  | cons a L ih =>
      rw [List.countP_cons, List.countP_cons]
      by_cases heq : a = l₀
      · subst heq
        have hmono : List.countP p L ≤ List.countP q L :=
          List.countP_mono_left (fun x hx => himp x (List.mem_cons_of_mem _ hx))
        simp only [hp, hq]
        simp only [Bool.false_eq_true, if_false, if_true, ite_true, ite_false,
          add_zero]
        omega
      · have hmem : l₀ ∈ L := by
          rcases List.mem_cons.mp h₀ with h | h
          · exact absurd h.symm heq
          · exact h
        have hrec := ih hmem (fun x hx => himp x (List.mem_cons_of_mem _ hx))
        by_cases hpa : p a = true
        · simp only [hpa, himp a (List.mem_cons_self a L) hpa, if_true,
            ite_true]
          omega
        · simp only [Bool.eq_false_iff.mpr hpa, Bool.false_eq_true, if_false,
            ite_false, add_zero]
          split <;> omega

/-- Counting helper: two disjoint predicates each implying `r` jointly count
at most `r`. -/
lemma countP_add_countP_le {α : Type} (L : List α) (p q r : α → Bool)
    (hdisj : ∀ x ∈ L, ¬(p x = true ∧ q x = true))
    (hpr : ∀ x ∈ L, p x = true → r x = true)
    (hqr : ∀ x ∈ L, q x = true → r x = true) :
    L.countP p + L.countP q ≤ L.countP r := by
  induction L with
  | nil => simp
  | cons a L ih =>
      have hrec := ih (fun x hx => hdisj x (List.mem_cons_of_mem a hx))
        (fun x hx => hpr x (List.mem_cons_of_mem a hx))
        (fun x hx => hqr x (List.mem_cons_of_mem a hx))
      rw [List.countP_cons, List.countP_cons, List.countP_cons]
      by_cases hpa : p a = true
      · have hra := hpr a (List.mem_cons_self a L) hpa
        have hqa : ¬q a = true := fun hqa =>
          hdisj a (List.mem_cons_self a L) ⟨hpa, hqa⟩
        simp only [hpa, hra, Bool.eq_false_iff.mpr hqa, Bool.false_eq_true,
          if_true, ite_true, if_false, ite_false, add_zero]
        omega
      · simp only [Bool.eq_false_iff.mpr hpa, Bool.false_eq_true, if_false,
          ite_false, add_zero]
        by_cases hqa : q a = true
        · have hra := hqr a (List.mem_cons_self a L) hqa
          simp only [hqa, hra, if_true, ite_true]
          omega
        · simp only [Bool.eq_false_iff.mpr hqa, Bool.false_eq_true, if_false,
            ite_false, add_zero]
          split <;> omega

lemma computeBigResult_classic_eq_P (l : Fin 9 → LRes) (p : Player)
    (h : computeBigResult l Variant.classic = LRes.P p) :
    evalWinner9 (toBigCells l) = some p := by
  have hred : computeBigResult l Variant.classic =
      (match evalWinner9 (toBigCells l) with
       | some w => LRes.P w
       | none =>
           if (List.finRange 9).all (fun i => decide (l i ≠ LRes.N)) then LRes.D
           else LRes.N) := rfl
  rw [hred] at h
  rcases hE : evalWinner9 (toBigCells l) with _ | w
  · rw [hE] at h
    dsimp only at h
    split at h <;> cases h
  · rw [hE] at h
    dsimp only at h
    injection h with h
    rw [h]

lemma computeBigResult_classic_eq_N (l : Fin 9 → LRes)
    (h : computeBigResult l Variant.classic = LRes.N) :
    evalWinner9 (toBigCells l) = none := by
  rcases hE : evalWinner9 (toBigCells l) with _ | w
  · rfl
  · exfalso
    have hP : computeBigResult l Variant.classic = LRes.P w := by
      have hred : computeBigResult l Variant.classic =
          (match evalWinner9 (toBigCells l) with
           | some w => LRes.P w
           | none =>
               if (List.finRange 9).all (fun i => decide (l i ≠ LRes.N)) then
                 LRes.D
               else LRes.N) := rfl
      rw [hred, hE]
    rw [hP] at h
    cases h

lemma score2_le (s : GameState) (m : Move) (v : Variant) :
    score2 s m v ≤ 300 := by
  unfold score2
  split
  · cases v with
    | tictacku => norm_num
    | classic =>
        have hk : LINES.countP (fun l =>
            decide (countInLine (toBigCells (localAfterWin s m s.turn)) l
                s.turn = 2 ∧ lineMem m.bi l = true)) ≤ 4 := by
          refine le_trans (List.countP_mono_left ?_) (lines_mem_countP_le m.bi)
          intro x hx hpx
          exact (of_decide_eq_true hpx).2
        have hkq : ((LINES.countP (fun l =>
            decide (countInLine (toBigCells (localAfterWin s m s.turn)) l
                s.turn = 2 ∧ lineMem m.bi l = true)) : ℕ) : ℚ) ≤ 4 := by
          exact_mod_cast hk
        dsimp only
        linarith
  · norm_num

lemma score2_tictacku_le (s : GameState) (m : Move) :
    score2 s m Variant.tictacku ≤ 120 := by
  unfold score2
  split <;> norm_num

lemma score3_le (s : GameState) (m : Move) (v : Variant) :
    score3 s m v ≤ 110 := by
  unfold score3
  split_ifs <;> norm_num

lemma score3_classic_le (s : GameState) (m : Move) :
    score3 s m Variant.classic ≤ 90 := by
  unfold score3
  split_ifs with h1 h2
  · simp at h2
  · norm_num
  · norm_num

lemma score4_le (s : GameState) (m : Move) (v : Variant) :
    score4 s m v ≤ 500 := by
  unfold score4
  split_ifs <;> norm_num

lemma score5_add_score6_le (s : GameState) (m : Move) :
    score5 s m + score6 s m ≤ 60 := by
  unfold score5 score6
  have hdisj : ∀ x ∈ LINES,
      ¬((fun l => decide (lineMem m.ci l = true ∧
            countInLine (s.boards m.bi) l s.turn = 1 ∧
            countInLine (simBoard s m s.turn) l s.turn = 2 ∧
            countInLine (s.boards m.bi) l (other s.turn) = 0)) x = true ∧
        (fun l => decide (lineMem m.ci l = true ∧
            countInLine (s.boards m.bi) l (other s.turn) = 2 ∧
            countInLine (s.boards m.bi) l s.turn = 0)) x = true) := by
    rintro x hx ⟨h5x, h6x⟩
    have a5 := of_decide_eq_true h5x
    have a6 := of_decide_eq_true h6x
    have e0 := a5.2.2.2
    have e2 := a6.2.1
    rw [e0] at e2
    cases e2
  have hsum := countP_add_countP_le LINES _ _ (fun l => lineMem m.ci l) hdisj
    (fun x hx hpx => (of_decide_eq_true hpx).1)
    (fun x hx hpx => (of_decide_eq_true hpx).1)
  have hc : LINES.countP (fun l => decide (lineMem m.ci l = true ∧
        countInLine (s.boards m.bi) l s.turn = 1 ∧
        countInLine (simBoard s m s.turn) l s.turn = 2 ∧
        countInLine (s.boards m.bi) l (other s.turn) = 0)) +
      LINES.countP (fun l => decide (lineMem m.ci l = true ∧
        countInLine (s.boards m.bi) l (other s.turn) = 2 ∧
        countInLine (s.boards m.bi) l s.turn = 0)) ≤ 4 :=
    le_trans hsum (lines_mem_countP_le m.ci)
  have hcq : ((LINES.countP (fun l => decide (lineMem m.ci l = true ∧
        countInLine (s.boards m.bi) l s.turn = 1 ∧
        countInLine (simBoard s m s.turn) l s.turn = 2 ∧
        countInLine (s.boards m.bi) l (other s.turn) = 0)) : ℕ) : ℚ) +
      ((LINES.countP (fun l => decide (lineMem m.ci l = true ∧
        countInLine (s.boards m.bi) l (other s.turn) = 2 ∧
        countInLine (s.boards m.bi) l s.turn = 0)) : ℕ) : ℚ) ≤ 4 := by
    exact_mod_cast hc
  have h5nn : (0 : ℚ) ≤ ((LINES.countP (fun l => decide (lineMem m.ci l = true ∧
        countInLine (s.boards m.bi) l s.turn = 1 ∧
        countInLine (simBoard s m s.turn) l s.turn = 2 ∧
        countInLine (s.boards m.bi) l (other s.turn) = 0)) : ℕ) : ℚ) :=
    Nat.cast_nonneg _
  have h6nn : (0 : ℚ) ≤ ((LINES.countP (fun l => decide (lineMem m.ci l = true ∧
        countInLine (s.boards m.bi) l (other s.turn) = 2 ∧
        countInLine (s.boards m.bi) l s.turn = 0)) : ℕ) : ℚ) :=
    Nat.cast_nonneg _
  linarith

lemma score7_le (m : Move) : score7 m ≤ 6 := by
  unfold score7
  split_ifs <;> norm_num

lemma score8_le (s : GameState) (m : Move) : score8 s m ≤ 64 := by
  unfold score8
  split
  · norm_num
  · have hb : LINES.countP (fun l =>
        decide (countInLine (s.boards m.ci) l s.turn = 2 ∧
          countInLine (s.boards m.ci) l (other s.turn) = 0)) ≤ 8 :=
      le_trans (List.countP_le_length _) (by decide)
    have hbq : ((LINES.countP (fun l =>
        decide (countInLine (s.boards m.ci) l s.turn = 2 ∧
          countInLine (s.boards m.ci) l (other s.turn) = 0)) : ℕ) : ℚ) ≤ 8 := by
      exact_mod_cast hb
    have hann : (0 : ℚ) ≤ ((LINES.countP (fun l =>
        decide (countInLine (s.boards m.ci) l (other s.turn) = 2 ∧
          countInLine (s.boards m.ci) l s.turn = 0)) : ℕ) : ℚ) :=
      Nat.cast_nonneg _
    linarith

lemma score9_le (s : GameState) (m : Move) : score9 s m ≤ 4 := by
  unfold score9
  have hb : countOpenLines (simBoard s m s.turn) s.turn ≤ 8 :=
    le_trans (List.countP_le_length _) (by decide)
  have hbq : ((countOpenLines (simBoard s m s.turn) s.turn : ℕ) : ℚ) ≤ 8 := by
    exact_mod_cast hb
  linarith

/-- Exclusion: in classic mode on a meta-board with no completed line, if the
opponent's simulated reply would decide the meta-game (step 4's +500), then
the opponent's new meta-line passes through the played board, so at most 3 of
the 4 lines through that board can carry the mover's 2-of-3 bonus: step 2
contributes at most 250. -/
lemma score2_le_of_bigwin (s : GameState) (m : Move)
    (hnone : evalWinner9 (toBigCells s.locals) = none)
    (hbig : computeBigResult (localAfterWin s m (other s.turn)) Variant.classic =
      LRes.P (other s.turn)) :
    score2 s m Variant.classic ≤ 250 := by
  have hW := computeBigResult_classic_eq_P _ _ hbig
  obtain ⟨l₀, hl₀, ha, hb, hc⟩ := evalWinner9_some _ _ hW
  have hmem : lineMem m.bi l₀ = true := by
    by_contra hnm
    have h1 : l₀.1 ≠ m.bi ∧ l₀.2.1 ≠ m.bi ∧ l₀.2.2 ≠ m.bi := by
      unfold lineMem at hnm
      simp only [decide_eq_true_eq, not_or] at hnm
      exact ⟨fun h => hnm.1 h.symm, fun h => hnm.2.1 h.symm,
        fun h => hnm.2.2 h.symm⟩
    have key : ∀ j : Fin 9, j ≠ m.bi →
        toBigCells (localAfterWin s m (other s.turn)) j = toBigCells s.locals j := by
      intro j hj
      unfold toBigCells localAfterWin
      rw [Function.update_noteq hj]
    rw [key _ h1.1] at ha
    rw [key _ h1.2.1] at hb
    rw [key _ h1.2.2] at hc
    exact evalWinner9_none _ _ hnone l₀ hl₀ ⟨ha, hb, hc⟩
  have hd := lines_entries_distinct l₀ hl₀
  have hbiv : toBigCells (localAfterWin s m s.turn) m.bi = some s.turn := by
    unfold toBigCells localAfterWin
    rw [Function.update_same]
  have hoth : ∀ j : Fin 9, j ≠ m.bi →
      toBigCells (localAfterWin s m (other s.turn)) j = some (other s.turn) →
      toBigCells (localAfterWin s m s.turn) j = some (other s.turn) := by
    intro j hj hval
    unfold toBigCells localAfterWin at hval ⊢
    rw [Function.update_noteq hj] at hval ⊢
    exact hval
  have hopp : (some (other s.turn) : Cell) ≠ some s.turn := by
    intro h
    injection h with h
    exact other_ne s.turn h
  have hcount : countInLine (toBigCells (localAfterWin s m s.turn)) l₀ s.turn
      = 1 := by
    rcases of_decide_eq_true hmem with h1 | h1 | h1
    · have e1 : toBigCells (localAfterWin s m s.turn) l₀.1 = some s.turn := by
        rw [← h1]
        exact hbiv
      have n2 : l₀.2.1 ≠ m.bi := by
        rw [h1]
        exact hd.1.symm
      have n3 : l₀.2.2 ≠ m.bi := by
        rw [h1]
        exact hd.2.1.symm
      have e2 := hoth _ n2 hb
      have e3 := hoth _ n3 hc
      unfold countInLine
      simp [e1, e2, e3, hopp]
    · have e2 : toBigCells (localAfterWin s m s.turn) l₀.2.1 = some s.turn := by
        rw [← h1]
        exact hbiv
      have n1 : l₀.1 ≠ m.bi := by
        rw [h1]
        exact hd.1
      have n3 : l₀.2.2 ≠ m.bi := by
        rw [h1]
        exact hd.2.2.symm
      have e1 := hoth _ n1 ha
      have e3 := hoth _ n3 hc
      unfold countInLine
      simp [e1, e2, e3, hopp]
    · have e3 : toBigCells (localAfterWin s m s.turn) l₀.2.2 = some s.turn := by
        rw [← h1]
        exact hbiv
      have n1 : l₀.1 ≠ m.bi := by
        rw [h1]
        exact hd.2.1
      have n2 : l₀.2.1 ≠ m.bi := by
        rw [h1]
        exact hd.2.2
      have e1 := hoth _ n1 ha
      have e2 := hoth _ n2 hb
      unfold countInLine
      simp [e1, e2, e3, hopp]
  have hpredF : (fun l => decide
      (countInLine (toBigCells (localAfterWin s m s.turn)) l s.turn = 2 ∧
        lineMem m.bi l = true)) l₀ = false := by
    rw [decide_eq_false_iff_not]
    rintro ⟨h2, -⟩
    rw [hcount] at h2
    cases h2
  have hk3 : LINES.countP (fun l => decide
      (countInLine (toBigCells (localAfterWin s m s.turn)) l s.turn = 2 ∧
        lineMem m.bi l = true)) ≤ 3 := by
    have hw := countP_succ_le_of_witness LINES
      (fun l => decide
        (countInLine (toBigCells (localAfterWin s m s.turn)) l s.turn = 2 ∧
          lineMem m.bi l = true))
      (fun l => lineMem m.bi l) l₀ hl₀
      (fun x hx hpx => (of_decide_eq_true hpx).2) hpredF hmem
    have h4 := lines_mem_countP_le m.bi
    omega
  unfold score2
  split
  · dsimp only
    have hkq : ((LINES.countP (fun l => decide
        (countInLine (toBigCells (localAfterWin s m s.turn)) l s.turn = 2 ∧
          lineMem m.bi l = true)) : ℕ) : ℚ) ≤ 3 := by
      exact_mod_cast hk3
    linarith
  · norm_num

/-- The heuristic value of a move is either the game-winning sentinel 1000 or
at most 974, provided the current meta-board carries no completed line in
classic mode (true of every position in which moves are still legal). -/
lemma scoreMove_bound (s : GameState) (m : Move) (v : Variant)
    (hnone : v = Variant.classic → evalWinner9 (toBigCells s.locals) = none) :
    scoreMove s m v = 1000 ∨ scoreMove s m v ≤ 974 := by
  unfold scoreMove
  split
  · exact Or.inl rfl
  · right
    have h56 := score5_add_score6_le s m
    have h7 := score7_le m
    have h8 := score8_le s m
    have h9 := score9_le s m
    cases v with
    | tictacku =>
        have h2 := score2_tictacku_le s m
        have h3 := score3_le s m Variant.tictacku
        have h4 := score4_le s m Variant.tictacku
        linarith
    | classic =>
        have h3 := score3_classic_le s m
        by_cases h4c : evalWinner9 (simBoard s m (other s.turn)) =
            some (other s.turn) ∧
            computeBigResult (localAfterWin s m (other s.turn)) Variant.classic =
              LRes.P (other s.turn)
        · have h2 := score2_le_of_bigwin s m (hnone rfl) h4c.2
          have h4 : score4 s m Variant.classic = 500 := by
            unfold score4
            rw [if_pos h4c]
          linarith
        · have h2 := score2_le s m Variant.classic
          have h4 : score4 s m Variant.classic = 0 := by
            unfold score4
            rw [if_neg h4c]
          linarith

/-- At hard difficulty, `pickMove` returns a legal move whose score is within
the tolerance 3 of every legal move's score, whatever the two random draws
(provided the selection draw lies in `[0,1)`). -/
lemma pickMove_hard_band (s : GameState) (v : Variant) (r1 r2 : ℚ)
    (m0 : Move) (hm0 : m0 ∈ legalMoves s)
    (hr2a : 0 ≤ r2) (hr2b : r2 < 1) :
    ∃ m2 ∈ legalMoves s, pickMove s Difficulty.hard v r1 r2 = some m2 ∧
      ∀ m' ∈ legalMoves s, scoreMove s m' v ≤ scoreMove s m2 v + 3 := by
  classical
  have hne : (legalMoves s).isEmpty = false := by
    rcases he : (legalMoves s).isEmpty with _ | _
    · rfl
    · exact absurd (List.isEmpty_iff.mp he) (List.ne_nil_of_mem hm0)
  have hmem_scored : ScoredMove.mk m0 (scoreMove s m0 v) ∈
      (legalMoves s).map (fun m' => ScoredMove.mk m' (scoreMove s m' v)) :=
    List.mem_map.mpr ⟨m0, hm0, rfl⟩
  have hperm := List.perm_insertionSort scoreGE
    ((legalMoves s).map (fun m' => ScoredMove.mk m' (scoreMove s m' v)))
  have hsort := List.sorted_insertionSort scoreGE
    ((legalMoves s).map (fun m' => ScoredMove.mk m' (scoreMove s m' v)))
  obtain ⟨top0, rest, hs⟩ : ∃ a l, List.insertionSort scoreGE
      ((legalMoves s).map (fun m' => ScoredMove.mk m' (scoreMove s m' v))) =
      a :: l := by
    rcases he : List.insertionSort scoreGE
        ((legalMoves s).map (fun m' => ScoredMove.mk m' (scoreMove s m' v)))
      with _ | ⟨a, l⟩
    · exfalso
      have hmm := hperm.mem_iff.mpr hmem_scored
      rw [he] at hmm
      cases hmm
    · exact ⟨a, l, rfl⟩
  rw [hs] at hperm hsort
  have hall : ∀ x ∈ top0 :: rest, x.score ≤ top0.score := by
    intro x hx
    rcases List.mem_cons.mp hx with rfl | hx
    · exact le_refl _
    · exact List.rel_of_sorted_cons hsort x hx
  -- the filtered band and the selected index
  have hband0 : (decide (top0.score - difficultyThreshold Difficulty.hard ≤
      top0.score)) = true := by
    rw [decide_eq_true_iff]
    show top0.score - 3 ≤ top0.score
    linarith
  have htop_mem : top0 ∈ (top0 :: rest).filter
      (fun sm => decide (top0.score - difficultyThreshold Difficulty.hard ≤
        sm.score)) :=
    List.mem_filter.mpr ⟨List.mem_cons_self _ _, hband0⟩
  have hlen_pos : 0 < ((top0 :: rest).filter
      (fun sm => decide (top0.score - difficultyThreshold Difficulty.hard ≤
        sm.score))).length :=
    List.length_pos.mpr (List.ne_nil_of_mem htop_mem)
  have hidx : (⌊r2 * (((top0 :: rest).filter
      (fun sm => decide (top0.score - difficultyThreshold Difficulty.hard ≤
        sm.score))).length : ℚ)⌋).toNat <
      ((top0 :: rest).filter
        (fun sm => decide (top0.score - difficultyThreshold Difficulty.hard ≤
          sm.score))).length := by
    have hq : (0 : ℚ) < (((top0 :: rest).filter
        (fun sm => decide (top0.score - difficultyThreshold Difficulty.hard ≤
          sm.score))).length : ℚ) := by
      exact_mod_cast hlen_pos
    have h0 : (0 : ℚ) ≤ r2 * (((top0 :: rest).filter
        (fun sm => decide (top0.score - difficultyThreshold Difficulty.hard ≤
          sm.score))).length : ℚ) :=
      mul_nonneg hr2a (le_of_lt hq)
    have hlt : r2 * (((top0 :: rest).filter
        (fun sm => decide (top0.score - difficultyThreshold Difficulty.hard ≤
          sm.score))).length : ℚ) <
        (((top0 :: rest).filter
          (fun sm => decide (top0.score - difficultyThreshold Difficulty.hard ≤
            sm.score))).length : ℚ) := by
      calc r2 * (((top0 :: rest).filter
            (fun sm => decide (top0.score - difficultyThreshold Difficulty.hard ≤
              sm.score))).length : ℚ) <
          1 * (((top0 :: rest).filter
            (fun sm => decide (top0.score - difficultyThreshold Difficulty.hard ≤
              sm.score))).length : ℚ) := mul_lt_mul_of_pos_right hr2b hq
        _ = _ := one_mul _
    rw [Int.toNat_lt (Int.floor_nonneg.mpr h0)]
    rw [Int.floor_lt]
    push_cast
    exact hlt
  have hget := List.getElem?_eq_getElem hidx
  have hsel_mem_top := List.getElem_mem hidx
  obtain ⟨hsel_mem_sorted, hsel_band⟩ := List.mem_filter.mp hsel_mem_top
  have hsel_mem_scored := hperm.mem_iff.mp hsel_mem_sorted
  obtain ⟨m2, hm2, hm2e⟩ := List.mem_map.mp hsel_mem_scored
  refine ⟨m2, hm2, ?_, ?_⟩
  · unfold pickMove
    rw [if_neg (by rw [hne]; exact Bool.noConfusion)]
    rw [if_neg (by rintro ⟨hdiff, -⟩; cases hdiff)]
    rw [hs]
    dsimp only
    rw [hget, ← hm2e]
    rfl
  · intro m' hm'
    have hm'_mem : ScoredMove.mk m' (scoreMove s m' v) ∈ top0 :: rest :=
      hperm.mem_iff.mpr (List.mem_map.mpr ⟨m', hm', rfl⟩)
    have hle := hall _ hm'_mem
    dsimp only at hle
    have hb : top0.score - difficultyThreshold Difficulty.hard ≤
        (ScoredMove.mk m2 (scoreMove s m2 v)).score := by
      rw [hm2e]
      exact decide_eq_true_iff.mp hsel_band
    have hb3 : top0.score - 3 ≤ scoreMove s m2 v := hb
    linarith

/-- The property claimed of hard-mode move selection: some move is returned,
it is legal, and it carries the game-winning sentinel score 1000. -/
def PicksWinningMove (s : GameState) (v : Variant) (r1 r2 : ℚ) : Prop :=
  ∃ m2 : Move, pickMove s Difficulty.hard v r1 r2 = some m2 ∧
    m2 ∈ legalMoves s ∧ scoreMove s m2 v = 1000

/-- C3: in every reachable position offering an immediate game-winning move
(one whose `scoreMove` value is the sentinel 1000), `pickMove` at the
strictest difficulty returns an immediate game-winning move, for every
outcome of its internal random draws. -/
theorem hard_pickMove_takes_game_win (v : Variant) (s : GameState)
    (hr : Reachable v s) (m : Move) (hm : m ∈ legalMoves s)
    (h1000 : scoreMove s m v = 1000) (r1 r2 : ℚ)
    (hr2a : 0 ≤ r2) (hr2b : r2 < 1) :
    PicksWinningMove s v r1 r2 := by
  have hresN : s.result = LRes.N := ((mem_legalMoves s m).mp hm).1
  have hJ : computeBigResult s.locals v = LRes.N := by
    rcases reachable_result_cache hr with h | h
    · rw [← h]
      exact hresN
    · exact absurd hresN h
  have hnone : v = Variant.classic → evalWinner9 (toBigCells s.locals) = none := by
    intro hv
    subst hv
    exact computeBigResult_classic_eq_N _ hJ
  obtain ⟨m2, hm2, hpick, hband⟩ := pickMove_hard_band s v r1 r2 m hm hr2a hr2b
  refine ⟨m2, hpick, hm2, ?_⟩
  have hge := hband m hm
  rw [h1000] at hge
  rcases scoreMove_bound s m2 v hnone with h | h
  · exact h
  · linarith

/-! ### A concrete reachable position with an immediate game-winning move

The sixteen-move game below lets X win boards 0 and 1 (bottom rows) while O
scatters harmless marks over boards 6, 7, 8, 3 and 4; X then fills cells 0
and 1 of board 2.  In the resulting position the legal move (2,2) wins board
2 and with it the top row of the meta-board.  Each intermediate position is
written out literally so that the step equalities are cheap to check. -/

/-- Build a board row from an explicit list of occupied cells. -/
def cellsOf (entries : List (Fin 9 × Player)) : Fin 9 → Cell :=
  fun ci => (entries.find? (fun e => decide (e.1 = ci))).map (fun e => e.2)

/-- Build the nine boards from an explicit list of non-empty rows. -/
def boardsOf (entries : List (Fin 9 × List (Fin 9 × Player))) :
    Fin 9 → Fin 9 → Cell :=
  fun bi =>
    match entries.find? (fun e => decide (e.1 = bi)) with
    | some e => cellsOf e.2
    | none => fun _ => none

/-- Build the cached local results from an explicit list of decided boards. -/
def localsOf (entries : List (Fin 9 × LRes)) : Fin 9 → LRes :=
  fun i =>
    match entries.find? (fun e => decide (e.1 = i)) with
    | some e => e.2
    | none => LRes.N

/-- A mid-game position of the witness game: explicit boards, cached local
results, forced board and turn; result undecided, cube untouched. -/
def midState (bs : List (Fin 9 × List (Fin 9 × Player)))
    (ls : List (Fin 9 × LRes)) (nb : Option (Fin 9)) (t : Player) :
    GameState where
  boards := boardsOf bs
  locals := localsOf ls
  nextBoard := nb
  turn := t
  result := LRes.N
  cubeValue := 1
  cubeOwner := none
  pendingDouble := none

instance : DecidableEq GameState := fun a b =>
  decidable_of_iff
    (a.boards = b.boards ∧ a.locals = b.locals ∧ a.nextBoard = b.nextBoard ∧
     a.turn = b.turn ∧ a.result = b.result ∧ a.cubeValue = b.cubeValue ∧
     a.cubeOwner = b.cubeOwner ∧ a.pendingDouble = b.pendingDouble)
    (by
      constructor
      · rintro ⟨h1, h2, h3, h4, h5, h6, h7, h8⟩
        cases a
        cases b
        simp_all
      · rintro rfl
        exact ⟨rfl, rfl, rfl, rfl, rfl, rfl, rfl, rfl⟩)

def gs1 : GameState :=
  midState [(0, [(6, Player.X)])] [] (some 6) Player.O

def gs2 : GameState :=
  midState [(0, [(6, Player.X)]), (6, [(0, Player.O)])] [] (some 0) Player.X

def gs3 : GameState :=
  midState [(0, [(6, Player.X), (7, Player.X)]), (6, [(0, Player.O)])] []
    (some 7) Player.O

def gs4 : GameState :=
  midState [(0, [(6, Player.X), (7, Player.X)]), (6, [(0, Player.O)]),
    (7, [(0, Player.O)])] [] (some 0) Player.X

def gs5 : GameState :=
  midState [(0, [(6, Player.X), (7, Player.X), (8, Player.X)]),
    (6, [(0, Player.O)]), (7, [(0, Player.O)])]
    [(0, LRes.P Player.X)] (some 8) Player.O

def gs6 : GameState :=
  midState [(0, [(6, Player.X), (7, Player.X), (8, Player.X)]),
    (6, [(0, Player.O)]), (7, [(0, Player.O)]), (8, [(1, Player.O)])]
    [(0, LRes.P Player.X)] (some 1) Player.X

def gs7 : GameState :=
  midState [(0, [(6, Player.X), (7, Player.X), (8, Player.X)]),
    (1, [(6, Player.X)]),
    (6, [(0, Player.O)]), (7, [(0, Player.O)]), (8, [(1, Player.O)])]
    [(0, LRes.P Player.X)] (some 6) Player.O

def gs8 : GameState :=
  midState [(0, [(6, Player.X), (7, Player.X), (8, Player.X)]),
    (1, [(6, Player.X)]),
    (6, [(0, Player.O), (1, Player.O)]), (7, [(0, Player.O)]),
    (8, [(1, Player.O)])]
    [(0, LRes.P Player.X)] (some 1) Player.X

def gs9 : GameState :=
  midState [(0, [(6, Player.X), (7, Player.X), (8, Player.X)]),
    (1, [(6, Player.X), (7, Player.X)]),
    (6, [(0, Player.O), (1, Player.O)]), (7, [(0, Player.O)]),
    (8, [(1, Player.O)])]
    [(0, LRes.P Player.X)] (some 7) Player.O

def gs10 : GameState :=
  midState [(0, [(6, Player.X), (7, Player.X), (8, Player.X)]),
    (1, [(6, Player.X), (7, Player.X)]),
    (6, [(0, Player.O), (1, Player.O)]), (7, [(0, Player.O), (1, Player.O)]),
    (8, [(1, Player.O)])]
    [(0, LRes.P Player.X)] (some 1) Player.X

def gs11 : GameState :=
  midState [(0, [(6, Player.X), (7, Player.X), (8, Player.X)]),
    (1, [(6, Player.X), (7, Player.X), (8, Player.X)]),
    (6, [(0, Player.O), (1, Player.O)]), (7, [(0, Player.O), (1, Player.O)]),
    (8, [(1, Player.O)])]
    [(0, LRes.P Player.X), (1, LRes.P Player.X)] (some 8) Player.O

def gs12 : GameState :=
  midState [(0, [(6, Player.X), (7, Player.X), (8, Player.X)]),
    (1, [(6, Player.X), (7, Player.X), (8, Player.X)]),
    (6, [(0, Player.O), (1, Player.O)]), (7, [(0, Player.O), (1, Player.O)]),
    (8, [(1, Player.O), (2, Player.O)])]
    [(0, LRes.P Player.X), (1, LRes.P Player.X)] (some 2) Player.X

def gs13 : GameState :=
  midState [(0, [(6, Player.X), (7, Player.X), (8, Player.X)]),
    (1, [(6, Player.X), (7, Player.X), (8, Player.X)]),
    (2, [(0, Player.X)]),
    (6, [(0, Player.O), (1, Player.O)]), (7, [(0, Player.O), (1, Player.O)]),
    (8, [(1, Player.O), (2, Player.O)])]
    [(0, LRes.P Player.X), (1, LRes.P Player.X)] none Player.O

def gs14 : GameState :=
  midState [(0, [(6, Player.X), (7, Player.X), (8, Player.X)]),
    (1, [(6, Player.X), (7, Player.X), (8, Player.X)]),
    (2, [(0, Player.X)]), (3, [(2, Player.O)]),
    (6, [(0, Player.O), (1, Player.O)]), (7, [(0, Player.O), (1, Player.O)]),
    (8, [(1, Player.O), (2, Player.O)])]
    [(0, LRes.P Player.X), (1, LRes.P Player.X)] (some 2) Player.X

def gs15 : GameState :=
  midState [(0, [(6, Player.X), (7, Player.X), (8, Player.X)]),
    (1, [(6, Player.X), (7, Player.X), (8, Player.X)]),
    (2, [(0, Player.X), (1, Player.X)]), (3, [(2, Player.O)]),
    (6, [(0, Player.O), (1, Player.O)]), (7, [(0, Player.O), (1, Player.O)]),
    (8, [(1, Player.O), (2, Player.O)])]
    [(0, LRes.P Player.X), (1, LRes.P Player.X)] none Player.O

def gs16 : GameState :=
  midState [(0, [(6, Player.X), (7, Player.X), (8, Player.X)]),
    (1, [(6, Player.X), (7, Player.X), (8, Player.X)]),
    (2, [(0, Player.X), (1, Player.X)]), (3, [(2, Player.O)]),
    (4, [(2, Player.O)]),
    (6, [(0, Player.O), (1, Player.O)]), (7, [(0, Player.O), (1, Player.O)]),
    (8, [(1, Player.O), (2, Player.O)])]
    [(0, LRes.P Player.X), (1, LRes.P Player.X)] (some 2) Player.X

lemma gsStep1 : applyMove initialState (Move.mk 0 6) Variant.classic = gs1 := by
  decide

lemma gsStep2 : applyMove gs1 (Move.mk 6 0) Variant.classic = gs2 := by
  decide

lemma gsStep3 : applyMove gs2 (Move.mk 0 7) Variant.classic = gs3 := by
  decide

lemma gsStep4 : applyMove gs3 (Move.mk 7 0) Variant.classic = gs4 := by
  decide

lemma gsStep5 : applyMove gs4 (Move.mk 0 8) Variant.classic = gs5 := by
  decide

lemma gsStep6 : applyMove gs5 (Move.mk 8 1) Variant.classic = gs6 := by
  decide

lemma gsStep7 : applyMove gs6 (Move.mk 1 6) Variant.classic = gs7 := by
  decide

lemma gsStep8 : applyMove gs7 (Move.mk 6 1) Variant.classic = gs8 := by
  decide

lemma gsStep9 : applyMove gs8 (Move.mk 1 7) Variant.classic = gs9 := by
  decide

lemma gsStep10 : applyMove gs9 (Move.mk 7 1) Variant.classic = gs10 := by
  decide

lemma gsStep11 : applyMove gs10 (Move.mk 1 8) Variant.classic = gs11 := by
  decide

lemma gsStep12 : applyMove gs11 (Move.mk 8 2) Variant.classic = gs12 := by
  decide

lemma gsStep13 : applyMove gs12 (Move.mk 2 0) Variant.classic = gs13 := by
  decide

lemma gsStep14 : applyMove gs13 (Move.mk 3 2) Variant.classic = gs14 := by
  decide

lemma gsStep15 : applyMove gs14 (Move.mk 2 1) Variant.classic = gs15 := by
  decide

lemma gsStep16 : applyMove gs15 (Move.mk 4 2) Variant.classic = gs16 := by
  decide

/-- The sixteen-move witness game is a legal play from the initial state. -/
lemma reach_gs16 : Reachable Variant.classic gs16 := by
  have h1 : Reachable Variant.classic gs1 :=
    gsStep1 ▸ Relation.ReflTransGen.tail Relation.ReflTransGen.refl
      (Step.move initialState (Move.mk 0 6) (by decide))
  have h2 : Reachable Variant.classic gs2 :=
    gsStep2 ▸ Relation.ReflTransGen.tail h1 (Step.move gs1 (Move.mk 6 0) (by decide))
  have h3 : Reachable Variant.classic gs3 :=
    gsStep3 ▸ Relation.ReflTransGen.tail h2 (Step.move gs2 (Move.mk 0 7) (by decide))
  have h4 : Reachable Variant.classic gs4 :=
    gsStep4 ▸ Relation.ReflTransGen.tail h3 (Step.move gs3 (Move.mk 7 0) (by decide))
  have h5 : Reachable Variant.classic gs5 :=
    gsStep5 ▸ Relation.ReflTransGen.tail h4 (Step.move gs4 (Move.mk 0 8) (by decide))
  have h6 : Reachable Variant.classic gs6 :=
    gsStep6 ▸ Relation.ReflTransGen.tail h5 (Step.move gs5 (Move.mk 8 1) (by decide))
  have h7 : Reachable Variant.classic gs7 :=
    gsStep7 ▸ Relation.ReflTransGen.tail h6 (Step.move gs6 (Move.mk 1 6) (by decide))
  have h8 : Reachable Variant.classic gs8 :=
    gsStep8 ▸ Relation.ReflTransGen.tail h7 (Step.move gs7 (Move.mk 6 1) (by decide))
  have h9 : Reachable Variant.classic gs9 :=
    gsStep9 ▸ Relation.ReflTransGen.tail h8 (Step.move gs8 (Move.mk 1 7) (by decide))
  have h10 : Reachable Variant.classic gs10 :=
    gsStep10 ▸ Relation.ReflTransGen.tail h9 (Step.move gs9 (Move.mk 7 1) (by decide))
  have h11 : Reachable Variant.classic gs11 :=
    gsStep11 ▸ Relation.ReflTransGen.tail h10 (Step.move gs10 (Move.mk 1 8) (by decide))
  have h12 : Reachable Variant.classic gs12 :=
    gsStep12 ▸ Relation.ReflTransGen.tail h11 (Step.move gs11 (Move.mk 8 2) (by decide))
  have h13 : Reachable Variant.classic gs13 :=
    gsStep13 ▸ Relation.ReflTransGen.tail h12 (Step.move gs12 (Move.mk 2 0) (by decide))
  have h14 : Reachable Variant.classic gs14 :=
    gsStep14 ▸ Relation.ReflTransGen.tail h13 (Step.move gs13 (Move.mk 3 2) (by decide))
  have h15 : Reachable Variant.classic gs15 :=
    gsStep15 ▸ Relation.ReflTransGen.tail h14 (Step.move gs14 (Move.mk 2 1) (by decide))
  exact gsStep16 ▸ Relation.ReflTransGen.tail h15 (Step.move gs15 (Move.mk 4 2) (by decide))

/-- C3 witness: in the concrete reachable position `gs16`, the move (2,2) is
a legal immediate game-winning move (score 1000), and hard-mode `pickMove`
with both random draws 0 returns a game-winning move. -/
theorem hard_pickMove_takes_game_win_witness :
    Move.mk 2 2 ∈ legalMoves gs16 ∧
    scoreMove gs16 (Move.mk 2 2) Variant.classic = 1000 ∧
    PicksWinningMove gs16 Variant.classic 0 0 :=
  ⟨by decide, by decide,
   hard_pickMove_takes_game_win Variant.classic gs16 reach_gs16
     (Move.mk 2 2) (by decide) (by decide) 0 0 (by norm_num) (by norm_num)⟩

end NineToes
